import Mathlib

/-!
Shallow embedding of the rustlings watch-mode orchestrator (src/src/main.rs):
the interactive shell (`spawn_watch_shell`, lines 241-276), the watch loop
(`watch`, lines 302-370), the pending-exercise recomputation (lines 335-338)
and the verification engine it drives. External collaborators (the looks-done
predicate and the compile+test operation) are parameters of an `Env`.
-/

namespace Rustlings

/-- A filesystem path, as its list of components (Rust `Path`). -/
abbrev FsPath := List String

/-- Rust `Path::ends_with`: `child`'s components are a whole-component suffix
of `p`'s (main.rs line 337: `event.path.ends_with(&exercise.path)`). -/
def pathEndsWith (p child : FsPath) : Bool :=
  child.isSuffixOf p

/-- Chars after the last dot of a list, if any dot occurs. -/
def extAux : List Char → Option (List Char)
  | [] => none
  | c :: cs =>
    match extAux cs with
    | some e => some e
    | none => if c = '.' then some cs else none

/-- Rust `Path::extension` restricted to one file name: the part after the
last dot, none when there is no dot, when the only dot is the leading one
(hidden files), or for `..`. -/
def fileExtension (s : String) : Option String :=
  match s.data with
  | [] => none
  | _ :: cs =>
    if s = ".." then none
    else
      match extAux cs with
      | some e => some (String.mk e)
      | none => none

/-- Rust `Path::extension`: the extension of the final path component. -/
def pathExtension (p : FsPath) : Option String :=
  match p.getLast? with
  | none => none
  | some name => fileExtension name

/-- Rust `str::trim`: drop whitespace from both ends. -/
def rustTrim (s : String) : String :=
  String.mk (((s.data.dropWhile Char.isWhitespace).reverse.dropWhile
    Char.isWhitespace).reverse)

/-- One exercise record (exercise.rs is external; the core reads only these
fields). -/
structure Exercise where
  name : String
  path : FsPath
  hint : String
deriving DecidableEq

/-- Result of the external `Exercise::looks_done` check, a `Result<bool, _>`
in the source. -/
inductive LooksDoneResult
  | ok (b : Bool)
  | ioError
deriving DecidableEq

/-- Rust `Result::unwrap_or` on a looks-done result (main.rs line 336). -/
def LooksDoneResult.unwrapOr (r : LooksDoneResult) (d : Bool) : Bool :=
  match r with
  | .ok b => b
  | .ioError => d

/-- The external collaborators of one watch iteration: the looks-done
predicate and the opaque compile+test operation, both per exercise. -/
structure Env where
  looksDone : Exercise → LooksDoneResult
  passes : Exercise → Bool

/-- Terminal state of one verification pass (verify.rs `VerifyState`). -/
inductive VerifyState
  | allExercisesDone
  | failed (e : Exercise)
deriving DecidableEq

/-- Modelled from the spec: verify.rs (the VerificationEngine) is not under
src/. Spec §4.3: iterate the given sequence in order, invoke the external
compile+test operation on each exercise, stop at the first failure and return
`Failed` with that exercise; if every exercise succeeds, return `AllDone`.
Returns the list of attempted exercises together with the terminal state. -/
def verifyRun (passes : Exercise → Bool) : List Exercise → List Exercise × VerifyState
  | [] => ([], .allExercisesDone)
  | e :: rest =>
    if passes e then
      let r := verifyRun passes rest
      (e :: r.1, r.2)
    else ([e], .failed e)

/-- Modelled from the spec: the terminal state of one verification pass. -/
def verify (passes : Exercise → Bool) (l : List Exercise) : VerifyState :=
  (verifyRun passes l).2

/-- main.rs lines 335-338: the pending set recomputed for one changed path —
one filtering traversal of the registry, keeping an exercise when its
looks-done check does not yield `true` (`unwrap_or(false)` swallows the error
case) or when the changed path ends with the exercise's path. -/
def recomputePending (env : Env) (exercises : List Exercise) (changed : FsPath) :
    List Exercise :=
  exercises.filter (fun exercise =>
    !((env.looksDone exercise).unwrapOr false) || pathEndsWith changed exercise.path)

/-- The recompute rule as the spec words it (for comparison with
`recomputePending`): include an exercise iff it is not yet solved — its
looks-done check returns `false` — or the changed path's suffix matches its
file path. -/
def recomputePendingSpec (env : Env) (exercises : List Exercise) (changed : FsPath) :
    List Exercise :=
  exercises.filter (fun exercise =>
    env.looksDone exercise == .ok false || pathEndsWith changed exercise.path)

/-- Change-kind tag of a debounced event (notify_debouncer_mini
`DebouncedEventKind`): `any` is the "content modified" kind. -/
inductive DebouncedEventKind
  | any
  | anyContinuous
deriving DecidableEq

/-- One element of a change-event batch. -/
structure DebouncedEvent where
  kind : DebouncedEventKind
  path : FsPath
deriving DecidableEq

/-- main.rs lines 332-333: the guard on one event — the `Any` kind and an
`rs` file extension. -/
def eventRelevant (ev : DebouncedEvent) : Bool :=
  ev.kind == DebouncedEventKind.any &&
    (pathExtension ev.path).any (fun ext => ext == "rs")

/-- The loop-carried mutable state of `watch`: the shared hint cell and the
`pending_exercises` vector. -/
structure LoopState where
  failedExerciseHint : Option String
  pendingExercises : List Exercise
deriving DecidableEq

/-- One verification pass as performed inside the loop: the sequence passed
to `verify`, the progress counter, and the result. -/
structure Pass where
  pendingSet : List Exercise
  numDone : Nat
  result : VerifyState
deriving DecidableEq

/-- main.rs lines 331-355, body for one event of the batch: when the guard
holds, extend `pending_exercises` with the recomputed set, run `verify`
over it; `AllDone` returns Finished (`none`), a failure stores the hint and
clears the vector. Returns the continuation state and the trace of passes
run. -/
def processEvent (env : Env) (exercises : List Exercise) (s : LoopState)
    (ev : DebouncedEvent) : Option LoopState × List Pass :=
  if eventRelevant ev then
    let pending := s.pendingExercises ++ recomputePending env exercises ev.path
    let numDone := exercises.length - pending.length
    match verify env.passes pending with
    | .allExercisesDone => (none, [⟨pending, numDone, .allExercisesDone⟩])
    | .failed e => (some ⟨some e.hint, []⟩, [⟨pending, numDone, .failed e⟩])
  else (some s, [])

/-- main.rs line 331: the `for event in events` loop over one delivered
batch, with the early return on `AllDone`. -/
def processBatch (env : Env) (exercises : List Exercise) (s : LoopState) :
    List DebouncedEvent → Option LoopState × List Pass
  | [] => (some s, [])
  | ev :: evs =>
    match processEvent env exercises s ev with
    | (none, tr) => (none, tr)
    | (some s1, tr) =>
      let r := processBatch env exercises s1 evs
      (r.1, tr ++ r.2)

/-- What `rx.recv_timeout` yields for one loop iteration (main.rs line 328). -/
inductive RecvResult
  | events (batch : List DebouncedEvent)
  | watchError
  | timeout
  | recvError

/-- Outcome of one loop iteration: continue with a state, or return one of
the two terminal statuses. -/
inductive StepOutcome
  | next (s : LoopState)
  | finished
  | unfinished
deriving DecidableEq

/-- main.rs lines 327-369: one iteration of the watch loop — process the
received batch (or report-and-continue on timeout/errors), then check the
quit flag, whose `true` value turns into the Unfinished terminal status. -/
def stepIteration (env : Env) (exercises : List Exercise) (quit : Bool)
    (r : RecvResult) (s : LoopState) : StepOutcome × List Pass :=
  match r with
  | .events batch =>
    match processBatch env exercises s batch with
    | (none, tr) => (.finished, tr)
    | (some s1, tr) => (if quit then .unfinished else .next s1, tr)
  | _ => (if quit then .unfinished else .next s, [])

/-- Outcome of `watch`'s initialization (main.rs lines 317-324). -/
inductive InitOutcome
  | finishedNoShell
  | shellSpawned (seededHint : String)
deriving DecidableEq

/-- main.rs lines 317-324: the initial full verification pass over the whole
registry; `AllDone` returns Finished before any shell is spawned, a failure
seeds the shared hint cell with the failing exercise's hint and the shell is
spawned before the event loop starts. -/
def watchInit (env : Env) (exercises : List Exercise) : InitOutcome :=
  match verify env.passes exercises with
  | .allExercisesDone => .finishedNoShell
  | .failed e => .shellSpawned e.hint

/-- main.rs lines 405-412. -/
def WATCH_MODE_HELP_MESSAGE : String :=
  "Commands available to you in watch mode:\n  hint   - prints the current exercise's hint\n  clear  - clears the screen\n  quit   - quits watch mode\n  help   - displays this help message\n\nWatch mode automatically re-evaluates the current exercise\nwhen you edit a file's contents."

/-- What one shell line produces: the quit flag afterwards and the lines
printed. -/
structure ShellStep where
  shouldQuit : Bool
  output : List String
deriving DecidableEq

/-- main.rs lines 259-273: dispatch of one trimmed input line of the watch
shell. The shared hint cell is only read, never written, by the shell. -/
def shellHandleLine (failedExerciseHint : Option String) (shouldQuit : Bool)
    (line : String) : ShellStep :=
  let input := rustTrim line
  if input == "hint" then
    { shouldQuit := shouldQuit,
      output := match failedExerciseHint with
        | some hint => [hint]
        | none => [] }
  else if input == "clear" then
    { shouldQuit := shouldQuit, output := ["\x1B[2J\x1B[1;1H"] }
  else if input == "quit" then
    { shouldQuit := true, output := ["Bye!"] }
  else if input == "help" then
    { shouldQuit := shouldQuit, output := [WATCH_MODE_HELP_MESSAGE] }
  else
    { shouldQuit := shouldQuit,
      output := ["unknown command: " ++ input ++ "\n" ++ WATCH_MODE_HELP_MESSAGE] }

/-! Concrete exercises and environments used by counterexamples and
witnesses. -/

def exA : Exercise := ⟨"exA", ["exercises", "exA.rs"], "hintA"⟩

def exB : Exercise := ⟨"exB", ["exercises", "exB.rs"], "hintB"⟩

def exC : Exercise := ⟨"exC", ["exercises", "exC.rs"], "hintC"⟩

/-- Every looks-done check fails with an I/O error; every exercise fails
compile+test. -/
def envErr : Env := ⟨fun _ => .ioError, fun _ => .false⟩

/-- Every exercise looks done; every exercise fails compile+test. -/
def env4 : Env := ⟨fun _ => .ok true, fun _ => .false⟩

/-- No exercise looks done; every exercise passes compile+test. -/
def envAllPass : Env := ⟨fun _ => .ok false, fun _ => .true⟩

/-- No exercise looks done; exactly exB fails compile+test. -/
def envTwo : Env := ⟨fun _ => .ok false, fun e => e.name != "exB"⟩

def evA : DebouncedEvent := ⟨.any, ["exercises", "exA.rs"]⟩

def evB : DebouncedEvent := ⟨.any, ["exercises", "exB.rs"]⟩

/-! Helper lemmas shared by several claims. -/

/-- When every exercise of the sequence passes, the run attempts all of them
and ends `AllDone`. -/
theorem verifyRun_all_pass (passes : Exercise → Bool) (P : List Exercise)
    (h : ∀ e ∈ P, passes e = true) :
    verifyRun passes P = (P, .allExercisesDone) := by
  induction P with
  | nil => rfl
  | cons a t ih =>
    have ha := h a (List.mem_cons_self a t)
    simp [verifyRun, ha, ih (fun e he => h e (List.mem_cons_of_mem a he))]

/-- When `e` is the first failing exercise of the sequence, the run attempts
exactly the passing ones before it plus `e`, and ends `Failed e`. -/
theorem verifyRun_first_fail (passes : Exercise → Bool) (P : List Exercise)
    (e : Exercise) (h : P.find? (fun x => !passes x) = some e) :
    verifyRun passes P = (P.takeWhile passes ++ [e], .failed e) := by
  induction P with
  | nil => simp at h
  | cons a t ih =>
    by_cases ha : passes a = true
    · rw [List.find?_cons_of_neg _ (by simp [ha])] at h
      simp [verifyRun, ha, ih h, List.takeWhile_cons, List.cons_append]
    · have ha' : passes a = false := Bool.eq_false_iff.mpr ha
      rw [List.find?_cons_of_pos _ (by simp [ha'])] at h
      cases h
      simp [verifyRun, ha', List.takeWhile_cons]

/-! The claims. -/

/-- C1: for every ordered exercise sequence P, `verify(P)` ends `Failed(e)`
with e the first element of P that the compile+test operation fails, and the
exercises after e are not attempted in that pass (the run attempts exactly
the passing ones before e plus e itself); if every element of P passes,
`verify(P)` ends `AllDone` after attempting all of P. -/
theorem verify_stops_at_first_failure (passes : Exercise → Bool) (P : List Exercise) :
    ((∀ e ∈ P, passes e = true) → verifyRun passes P = (P, .allExercisesDone)) ∧
    (∀ e, P.find? (fun x => !passes x) = some e →
      verifyRun passes P = (P.takeWhile passes ++ [e], .failed e)) :=
  ⟨verifyRun_all_pass passes P, verifyRun_first_fail passes P⟩

/-- C1 witness: with exB the first failing exercise of [exA, exB, exC], the
pass attempts exA and exB only and fails on exB. -/
theorem verify_stops_at_first_failure_witness :
    verifyRun envTwo.passes [exA, exB, exC] = ([exA, exB], .failed exB) := by
  have h := (verify_stops_at_first_failure envTwo.passes [exA, exB, exC]).2 exB (by decide)
  simpa using h

/-- The filter condition of `recomputePending`, spelt propositionally: the
looks-done check did not return `true` (false, or an I/O error swallowed by
`unwrap_or(false)`), or the changed path ends with the exercise's path. -/
theorem pendingCond_iff (env : Env) (e : Exercise) (changed : FsPath) :
    (!((env.looksDone e).unwrapOr false) || pathEndsWith changed e.path) = true ↔
      (env.looksDone e ≠ .ok true ∨ pathEndsWith changed e.path = true) := by
  cases h : env.looksDone e with
  | ok b => cases b <;> simp [LooksDoneResult.unwrapOr, h]
  | ioError => simp [LooksDoneResult.unwrapOr, h]

/-- C2 counterexample: an exercise whose looks-done check fails with an I/O
error and whose path does not match the changed path is in the code's
recomputed pending set, but not in the set the claim describes (looks-done
false, or path-suffix match). -/
theorem recomputePending_error_diverges_from_spec :
    recomputePending envErr [exA] ["other", "other.rs"] = [exA] ∧
    recomputePendingSpec envErr [exA] ["other", "other.rs"] = [] := by decide

/-- C2 amended: the recomputed pending set contains exactly the exercises
whose looks-done check does not return true (false result, or an I/O error
treated as not done) plus every exercise whose file path is a suffix of the
changed path, in registry order (it is a subsequence of the registry); in
particular a path-matching exercise is included even if it looks done. -/
theorem recomputePending_membership_and_order (env : Env)
    (exercises : List Exercise) (changed : FsPath) :
    (∀ e, e ∈ recomputePending env exercises changed ↔
      (e ∈ exercises ∧
        (env.looksDone e ≠ .ok true ∨ pathEndsWith changed e.path = true))) ∧
    (recomputePending env exercises changed).Sublist exercises := by
  refine ⟨fun e => ?_, List.filter_sublist _⟩
  rw [recomputePending, List.mem_filter]
  exact and_congr_right (fun _ => pendingCond_iff env e changed)

/-- C3 counterexample: with an exercise whose looks-done check reports an I/O
error, the pending recomputation still includes it and the watch iteration
completes normally (here: the verify pass fails and the loop continues with
the hint updated) — the error is not propagated as a fatal iteration error. -/
theorem looksDone_error_not_propagated :
    recomputePending envErr [exA] ["somewhere", "else.rs"] = [exA] ∧
    (stepIteration envErr [exA] false
        (.events [⟨.any, ["somewhere", "else.rs"]⟩]) ⟨none, []⟩).1 =
      .next ⟨some "hintA", []⟩ := by decide

/-- C3 amended: when the looks-done predicate of an exercise fails with an
I/O error during the watch loop's pending-set recomputation, the exercise is
silently treated as not done — it is included in the recomputed pending set —
and no error is propagated (`unwrap_or(false)` swallows it). -/
theorem looksDone_error_treated_as_not_done (env : Env)
    (exercises : List Exercise) (changed : FsPath) (e : Exercise)
    (he : e ∈ exercises) (herr : env.looksDone e = .ioError) :
    e ∈ recomputePending env exercises changed := by
  rw [recomputePending, List.mem_filter]
  exact ⟨he, by simp [LooksDoneResult.unwrapOr, herr]⟩

/-- C3 amended, witness: the erroring exercise exA is in the pending set
recomputed for an unrelated changed path. -/
theorem looksDone_error_treated_as_not_done_witness :
    exA ∈ recomputePending envErr [exA] ["somewhere", "else.rs"] :=
  looksDone_error_treated_as_not_done envErr [exA] ["somewhere", "else.rs"] exA
    (by decide) (by decide)

/-- C4 counterexample: a delivered batch with two relevant changed paths
yields two verification passes — one per event, each over the set recomputed
for that event's path alone — not one pass over the union of the two sets. -/
theorem batch_verifies_per_event_not_union :
    ((processBatch env4 [exA, exB] ⟨none, []⟩ [evA, evB]).2.map Pass.pendingSet =
      [[exA], [exB]]) ∧
    (processBatch env4 [exA, exB] ⟨none, []⟩ [evA, evB]).2.length ≠ 1 := by decide

/-- C4 amended: for a delivered batch, the orchestrator processes the
relevant events sequentially — for each relevant changed path it recomputes
the pending set for that path alone and runs one verification pass over it,
clearing the set between passes (as long as no pass returns AllDone, which
would end the loop early). -/
theorem processBatch_pass_per_relevant_event (env : Env)
    (exercises : List Exercise) (hint : Option String)
    (batch : List DebouncedEvent)
    (hfail : ∀ ev ∈ batch, eventRelevant ev = true →
      verify env.passes (recomputePending env exercises ev.path) ≠
        .allExercisesDone) :
    (processBatch env exercises ⟨hint, []⟩ batch).2.map Pass.pendingSet =
      (batch.filter eventRelevant).map
        (fun ev => recomputePending env exercises ev.path) := by
  induction batch generalizing hint with
  | nil => rfl
  | cons ev evs ih =>
    have hrest : ∀ e ∈ evs, eventRelevant e = true →
        verify env.passes (recomputePending env exercises e.path) ≠
          .allExercisesDone :=
      fun e he => hfail e (List.mem_cons_of_mem ev he)
    by_cases hrel : eventRelevant ev = true
    · have hne := hfail ev (List.mem_cons_self ev evs) hrel
      cases hv : verify env.passes (recomputePending env exercises ev.path) with
      | allExercisesDone => exact absurd hv hne
      | failed e =>
        simp [processBatch, processEvent, hrel, hv, List.filter_cons,
          ih (some e.hint) hrest]
    · simp [processBatch, processEvent, hrel, List.filter_cons, ih hint hrest]

/-- C4 amended, witness: one relevant event yields exactly its own
recomputed set as the single verification pass. -/
theorem processBatch_pass_per_relevant_event_witness :
    (processBatch env4 [exA] ⟨none, []⟩ [evA]).2.map Pass.pendingSet =
      ([evA].filter eventRelevant).map
        (fun ev => recomputePending env4 [exA] ev.path) :=
  processBatch_pass_per_relevant_event env4 [exA] none [evA] (by decide)

/-- C5: the initialization of `watch` runs a full verification pass over the
entire registry; when every exercise passes it, the pass is AllDone and watch
returns its Finished status without spawning the shell; when some exercise
fails, the first failing exercise's hint seeds the shared hint state and the
interactive shell is spawned before the event loop. -/
theorem watchInit_allDone_or_seed_hint (env : Env) (exercises : List Exercise) :
    ((∀ e ∈ exercises, env.passes e = true) →
      watchInit env exercises = .finishedNoShell) ∧
    (∀ e, exercises.find? (fun x => !env.passes x) = some e →
      watchInit env exercises = .shellSpawned e.hint) := by
  constructor
  · intro h
    unfold watchInit verify
    rw [verifyRun_all_pass env.passes exercises h]
  · intro e h
    unfold watchInit verify
    rw [verifyRun_first_fail env.passes exercises e h]

/-- C5 witness: with every exercise passing, initialization ends Finished
with no shell spawned. -/
theorem watchInit_allDone_or_seed_hint_witness :
    watchInit envAllPass [exA, exB] = .finishedNoShell :=
  (watchInit_allDone_or_seed_hint envAllPass [exA, exB]).1 (by decide)

/-- C6: once the shell sets the quit flag it is never cleared (a shell step
taken with the flag set leaves it set, whatever the input line), and an
orchestrator iteration whose channel wait ends in the 1-second timeout (no
verification pass in progress) returns the Unfinished terminal status
whenever the flag is set, whatever exercises remain unsolved. -/
theorem quit_flag_monotone_and_observed :
    (∀ (hint : Option String) (line : String),
      (shellHandleLine hint true line).shouldQuit = true) ∧
    (∀ (env : Env) (exercises : List Exercise) (s : LoopState),
      (stepIteration env exercises true .timeout s).1 = .unfinished) := by
  constructor
  · intro hint line
    simp only [shellHandleLine]
    split_ifs <;> rfl
  · intro env exercises s
    rfl

/-- C7: the shell trims each input line and dispatches by case-sensitive
exact match — `hint` emits the stored hint when present (and nothing when
absent), `clear` emits the terminal-clear control sequence, `quit` sets the
quit flag and acknowledges, `help` emits the fixed help text, and anything
else emits the unknown-command message followed by the help text. -/
theorem shell_command_dispatch (hint : Option String) (q : Bool) (line : String) :
    (rustTrim line = "hint" →
      shellHandleLine hint q line = ⟨q, hint.toList⟩) ∧
    (rustTrim line = "clear" →
      shellHandleLine hint q line = ⟨q, ["\x1B[2J\x1B[1;1H"]⟩) ∧
    (rustTrim line = "quit" →
      shellHandleLine hint q line = ⟨true, ["Bye!"]⟩) ∧
    (rustTrim line = "help" →
      shellHandleLine hint q line = ⟨q, [WATCH_MODE_HELP_MESSAGE]⟩) ∧
    (rustTrim line ≠ "hint" → rustTrim line ≠ "clear" → rustTrim line ≠ "quit" →
      rustTrim line ≠ "help" →
      shellHandleLine hint q line =
        ⟨q, ["unknown command: " ++ rustTrim line ++ "\n" ++
          WATCH_MODE_HELP_MESSAGE]⟩) := by
  refine ⟨fun h => ?_, fun h => ?_, fun h => ?_, fun h => ?_,
    fun h1 h2 h3 h4 => ?_⟩
  · cases hint <;> simp [shellHandleLine, h, Option.toList]
  · simp [shellHandleLine, h]
  · simp [shellHandleLine, h]
  · simp [shellHandleLine, h]
  · simp [shellHandleLine, h1, h2, h3, h4]

/-- C7 witness: a line trimming to `quit` sets the flag and acknowledges. -/
theorem shell_command_dispatch_witness :
    shellHandleLine (some "a hint") false " quit " = ⟨true, ["Bye!"]⟩ :=
  (shell_command_dispatch (some "a hint") false " quit ").2.2.1 (by decide)

/-- C8: an event triggers the recompute-and-verify branch iff its kind is
the content-modified kind (`Any`) and its path's extension is `rs`; any
other event is ignored — the loop state is unchanged and no verification
pass runs. -/
theorem relevant_event_guard (env : Env) (exercises : List Exercise)
    (s : LoopState) (ev : DebouncedEvent) :
    (eventRelevant ev = true ↔
      (ev.kind = .any ∧ pathExtension ev.path = some "rs")) ∧
    (eventRelevant ev = false → processEvent env exercises s ev = (some s, [])) := by
  constructor
  · unfold eventRelevant
    cases hx : pathExtension ev.path with
    | none => simp
    | some x => simp [Option.any]
  · intro h
    simp [processEvent, h]

/-- C8 witness: an event of the non-modified kind is ignored without effect
on the loop state and with no verification pass. -/
theorem relevant_event_guard_witness :
    processEvent env4 [exA] ⟨none, []⟩ ⟨.anyContinuous, ["exercises", "exA.rs"]⟩ =
      (some ⟨none, []⟩, []) :=
  (relevant_event_guard env4 [exA] ⟨none, []⟩
    ⟨.anyContinuous, ["exercises", "exA.rs"]⟩).2 (by decide)

/-- C9: over one delivered batch, if the last verification pass run returned
`Failed(e)` then the shared hint state afterwards holds e's hint, and if no
pass ran the hint state is untouched; the shell (`shellHandleLine`) only
reads the hint cell, so between passes nothing modifies it. -/
theorem hint_state_follows_last_failed_pass (env : Env)
    (exercises : List Exercise) (s s' : LoopState)
    (batch : List DebouncedEvent) (tr : List Pass)
    (h : processBatch env exercises s batch = (some s', tr)) :
    (∀ p e, tr.getLast? = some p → p.result = .failed e →
      s'.failedExerciseHint = some e.hint) ∧
    (tr = [] → s'.failedExerciseHint = s.failedExerciseHint) := by
  induction batch generalizing s tr with
  | nil =>
    simp only [processBatch, Prod.mk.injEq, Option.some.injEq] at h
    obtain ⟨rfl, rfl⟩ := h
    exact ⟨fun p e hp _ => by simp at hp, fun _ => rfl⟩
  | cons ev evs ih =>
    by_cases hrel : eventRelevant ev = true
    · cases hv : verify env.passes
          (s.pendingExercises ++ recomputePending env exercises ev.path) with
      | allExercisesDone =>
        simp [processBatch, processEvent, hrel, hv] at h
      | failed e0 =>
        simp only [processBatch, processEvent, hrel, if_true, hv,
          List.singleton_append, Prod.mk.injEq] at h
        obtain ⟨h1, h2⟩ := h
        subst h2
        obtain ⟨A, B⟩ := ih ⟨some e0.hint, []⟩
          (processBatch env exercises ⟨some e0.hint, []⟩ evs).2 (by rw [← h1])
        refine ⟨fun p e hp hres => ?_, fun hcontra => by simp at hcontra⟩
        rcases htr2 : (processBatch env exercises
            (⟨some e0.hint, []⟩ : LoopState) evs).2 with _ | ⟨q, qs⟩
        · rw [htr2] at hp
          simp at hp
          subst hp
          simp at hres
          subst hres
          simpa using B htr2
        · rw [htr2] at hp A
          rw [List.getLast?_cons_cons] at hp
          exact A p e hp hres
    · have hpe : processEvent env exercises s ev = (some s, []) := by
        simp [processEvent, hrel]
      simp only [processBatch, hpe, List.nil_append] at h
      exact ih s tr h

/-- C9 witness: after a batch whose single pass fails on exA, the hint state
holds exA's hint. -/
theorem hint_state_follows_last_failed_pass_witness :
    (⟨some "hintA", []⟩ : LoopState).failedExerciseHint = some exA.hint :=
  (hint_state_follows_last_failed_pass env4 [exA] ⟨none, []⟩ ⟨some "hintA", []⟩
      [evA] [⟨[exA], 0, .failed exA⟩] (by decide)).1
    ⟨[exA], 0, .failed exA⟩ exA (by decide) (by decide)

/-- C10: starting from an empty `pending_exercises` vector (the invariant at
every event boundary), the pending set built for one processed change event
is the single filtering traversal of the registry: it is a subsequence of
the registry order, contains each exercise at most once when the registry
has no duplicates, and the vector is empty again before the next event. -/
theorem pending_set_nodup_subsequence (env : Env) (exercises : List Exercise)
    (ev : DebouncedEvent) (s : LoopState) (hs : s.pendingExercises = [])
    (hnd : exercises.Nodup) :
    (∀ pass ∈ (processEvent env exercises s ev).2,
      pass.pendingSet = recomputePending env exercises ev.path ∧
      pass.pendingSet.Sublist exercises ∧ pass.pendingSet.Nodup) ∧
    (∀ s1, (processEvent env exercises s ev).1 = some s1 →
      s1.pendingExercises = []) := by
  have hsub : (recomputePending env exercises ev.path).Sublist exercises :=
    List.filter_sublist _
  have hnodup : (recomputePending env exercises ev.path).Nodup :=
    List.Nodup.sublist hsub hnd
  by_cases hrel : eventRelevant ev = true
  · cases hv : verify env.passes (recomputePending env exercises ev.path) with
    | allExercisesDone =>
      refine ⟨fun pass hp => ?_, fun s1 h1 => ?_⟩
      · simp [processEvent, hrel, hs, hv] at hp
        subst hp
        exact ⟨rfl, hsub, hnodup⟩
      · simp [processEvent, hrel, hs, hv] at h1
    | failed e0 =>
      refine ⟨fun pass hp => ?_, fun s1 h1 => ?_⟩
      · simp [processEvent, hrel, hs, hv] at hp
        subst hp
        exact ⟨rfl, hsub, hnodup⟩
      · simp [processEvent, hrel, hs, hv] at h1
        rw [← h1]
  · refine ⟨fun pass hp => ?_, fun s1 h1 => ?_⟩
    · simp [processEvent, hrel] at hp
    · simp [processEvent, hrel] at h1
      rw [← h1, hs]

/-- C10 witness: after one processed event the vector is empty again. -/
theorem pending_set_nodup_subsequence_witness :
    (⟨some "hintA", []⟩ : LoopState).pendingExercises = [] :=
  (pending_set_nodup_subsequence env4 [exA] evA ⟨none, []⟩ (by decide)
    (by decide)).2 ⟨some "hintA", []⟩ (by decide)

end Rustlings
